import Mathlib

/-!
Verification of the editorconfig-rs wrapper (src/lib.rs) together with a model
of the underlying EditorConfig resolution core.  The wrapper in src/lib.rs is a
thin layer over the C library libeditorconfig; the core behaviour (path walking,
INI parsing, glob matching, merging) is modelled from the specification, while
the wrapper functions (EditorConfigHandle.parse, get_rules, get_error_file,
get_error_message, Version.new, ...) are translated directly from src/lib.rs.

Strings are represented as lists of Unicode code points (`Str`), and OS-level
paths as lists of bytes (`List Nat`), decoded by a UTF-8 decoder.  Rust panics
are modelled as the `Except.error` constructor.
-/

/-- Strings are lists of Unicode code points. -/
abbrev Str := List Nat

/-- Code-point list of a Lean string literal (notation helper for concrete inputs). -/
def str (s : String) : Str := s.toList.map Char.toNat

/-- Splits a code-point list at every occurrence of the separator `sep`. -/
def splitOnChar (sep : Nat) : Str → List Str
  | [] => [[]]
  | c :: rest =>
    if c = sep then [] :: splitOnChar sep rest
    else
      match splitOnChar sep rest with
      | s :: ss => (c :: s) :: ss
      | [] => [[c]]

/-- Whitespace test used for trimming (space, tab, carriage return). -/
def wsB (c : Nat) : Bool := c == 32 || c == 9 || c == 13

/-- Strips leading and trailing whitespace. -/
def trim (s : Str) : Str :=
  ((s.dropWhile wsB).reverse.dropWhile wsB).reverse

/-- ASCII lower-casing of a single code point. -/
def lowerChar (c : Nat) : Nat := if 65 ≤ c ∧ c ≤ 90 then c + 32 else c

/-- ASCII lower-casing of a string. -/
def lower (s : Str) : Str := s.map lowerChar

/-- UTF-8 continuation byte test. -/
def isCont (b : Nat) : Bool := 128 ≤ b && b ≤ 191

/-- Fuelled UTF-8 decoder from bytes to code points.  Rejects malformed
sequences, overlong encodings, surrogates and out-of-range values, as a
conforming validator does. -/
def utf8DecodeAux : Nat → List Nat → Option (List Nat)
  | 0, _ => none
  | _ + 1, [] => some []
  | fuel + 1, b :: rest =>
    if b < 128 then (utf8DecodeAux fuel rest).map (fun s => b :: s)
    else if 194 ≤ b ∧ b ≤ 223 then
      match rest with
      | b1 :: rest2 =>
        if isCont b1 then
          (utf8DecodeAux fuel rest2).map (fun s => ((b - 192) * 64 + (b1 - 128)) :: s)
        else none
      | [] => none
    else if 224 ≤ b ∧ b ≤ 239 then
      match rest with
      | b1 :: b2 :: rest3 =>
        if isCont b1 && isCont b2 then
          let cp := (b - 224) * 4096 + (b1 - 128) * 64 + (b2 - 128)
          if 2048 ≤ cp ∧ (cp < 55296 ∨ 57343 < cp) then
            (utf8DecodeAux fuel rest3).map (fun s => cp :: s)
          else none
        else none
      | _ => none
    else if 240 ≤ b ∧ b ≤ 244 then
      match rest with
      | b1 :: b2 :: b3 :: rest4 =>
        if isCont b1 && isCont b2 && isCont b3 then
          let cp := (b - 240) * 262144 + (b1 - 128) * 4096 + (b2 - 128) * 64 + (b3 - 128)
          if 65536 ≤ cp ∧ cp ≤ 1114111 then
            (utf8DecodeAux fuel rest4).map (fun s => cp :: s)
          else none
        else none
      | _ => none
    else none

/-- UTF-8 decoding of a byte list, or `none` when the bytes are not valid
UTF-8 (each step consumes at least one byte, so the fuel is sufficient). -/
def utf8Decode (bytes : List Nat) : Option (List Nat) :=
  utf8DecodeAux (bytes.length + 1) bytes

/-- UTF-8 encoding of a single code point. -/
def utf8EncodeChar (c : Nat) : List Nat :=
  if c < 128 then [c]
  else if c < 2048 then [192 + c / 64, 128 + c % 64]
  else if c < 65536 then [224 + c / 4096, 128 + (c / 64) % 64, 128 + c % 64]
  else [240 + c / 262144, 128 + (c / 4096) % 64, 128 + (c / 64) % 64, 128 + c % 64]

/-- UTF-8 encoding of a string. -/
def utf8Encode (s : Str) : List Nat :=
  s.foldr (fun c acc => utf8EncodeChar c ++ acc) []

/-- EditorConfig version, an ordered triple (src/lib.rs lines 24-32).  The Rust
type is generic over `T: Into<c_int>`; it is modelled at `Int`. -/
structure Version where
  major : Int
  minor : Int
  patch : Int
deriving DecidableEq

/-- Three-way comparison on `Int`, mirroring Rust's `Ord::cmp`. -/
def intCmp (a b : Int) : Ordering :=
  if a < b then .lt else if b < a then .gt else .eq

/-- Derived lexicographic comparison of `Version` (the Rust `derive(PartialOrd, Ord)`
compares `major`, then `minor`, then `patch`). -/
def Version.cmp (u v : Version) : Ordering :=
  (intCmp u.major v.major).then ((intCmp u.minor v.minor).then (intCmp u.patch v.patch))

/-- Strict order on `Version` induced by the derived comparison. -/
def Version.lt (u v : Version) : Prop := Version.cmp u v = Ordering.lt

/-- Safe `Version` constructor (src/lib.rs lines 34-50).  The Rust function
panics when any component is negative; the panic is modelled as `none`. -/
def Version.new (major minor patch : Int) : Option Version :=
  if major < 0 ∨ minor < 0 ∨ patch < 0 then none
  else some ⟨major, minor, patch⟩

/-- Modelled from the spec: the version of the underlying libeditorconfig C
library; 0.12.5 is the minimum supported version recorded by the repository. -/
def libVersion : Version := ⟨0, 12, 5⟩

/-- Modelled from the spec: parses the body of a `[seq]` character class up to
the closing bracket, as (lo, hi) ranges; a single character `c` is the range
(c, c), and `a-z` ranges and backslash escapes are recognised.  Returns `none`
on a malformed (unterminated) class. -/
def parseClassBody : List Nat → Option (List (Nat × Nat) × List Nat)
  | [] => none
  | 93 :: rest => some ([], rest)
  | 92 :: c :: rest => (parseClassBody rest).map (fun pr => ((c, c) :: pr.1, pr.2))
  | c :: 45 :: d :: rest =>
    if d = 93 then some ([(c, c), (45, 45)], rest)
    else (parseClassBody rest).map (fun pr => ((c, d) :: pr.1, pr.2))
  | c :: rest => (parseClassBody rest).map (fun pr => ((c, c) :: pr.1, pr.2))

/-- Modelled from the spec: a `]` in first position inside a class is a literal
member rather than the terminator. -/
def parseClassStart (body : List Nat) : Option (List (Nat × Nat) × List Nat) :=
  match body with
  | 93 :: rest => (parseClassBody rest).map (fun pr => ((93, 93) :: pr.1, pr.2))
  | _ => parseClassBody body

/-- Modelled from the spec: splits a brace group after the opening brace into
its content and the remaining pattern, honouring nesting and escapes; `none`
when the group is unterminated (malformed). -/
def splitBraceAux : List Nat → Nat → Option (List Nat × List Nat)
  | [], _ => none
  | 125 :: rest, 0 => some ([], rest)
  | 125 :: rest, d + 1 => (splitBraceAux rest d).map (fun pr => (125 :: pr.1, pr.2))
  | 123 :: rest, d => (splitBraceAux rest (d + 1)).map (fun pr => (123 :: pr.1, pr.2))
  | 92 :: c :: rest, d => (splitBraceAux rest d).map (fun pr => (92 :: c :: pr.1, pr.2))
  | c :: rest, d => (splitBraceAux rest d).map (fun pr => (c :: pr.1, pr.2))

/-- Modelled from the spec: splits brace-group content at top-level commas into
the comma-separated alternatives. -/
def splitAltsAux : List Nat → Nat → List Nat → List (List Nat)
  | [], _, cur => [cur.reverse]
  | 44 :: rest, 0, cur => cur.reverse :: splitAltsAux rest 0 []
  | 123 :: rest, d, cur => splitAltsAux rest (d + 1) (123 :: cur)
  | 125 :: rest, d + 1, cur => splitAltsAux rest d (125 :: cur)
  | 92 :: c :: rest, d, cur => splitAltsAux rest d (c :: 92 :: cur)
  | c :: rest, d, cur => splitAltsAux rest d (c :: cur)

/-- Alternatives of a brace-group content. -/
def splitAlts (content : List Nat) : List (List Nat) :=
  splitAltsAux content 0 []

/-- All non-empty decimal prefixes of a code-point list, with their values and
the remaining suffix. -/
def digitPrefixesAux (acc : Nat) : List Nat → List (Nat × List Nat)
  | [] => []
  | c :: rest =>
    if 48 ≤ c ∧ c ≤ 57 then
      (acc * 10 + (c - 48), rest) :: digitPrefixesAux (acc * 10 + (c - 48)) rest
    else []

/-- All integer-literal prefixes (optional leading minus, then decimal digits,
leading zeros allowed) of a path, with their values and the remaining suffix. -/
def intPrefixes : List Nat → List (Int × List Nat)
  | 45 :: rest => (digitPrefixesAux 0 rest).map (fun pr => (-(pr.1 : Int), pr.2))
  | s => (digitPrefixesAux 0 s).map (fun pr => ((pr.1 : Int), pr.2))

/-- Value of a non-empty all-digit string. -/
def parseDigitsAux (acc : Nat) : List Nat → Option Nat
  | [] => some acc
  | c :: rest =>
    if 48 ≤ c ∧ c ≤ 57 then parseDigitsAux (acc * 10 + (c - 48)) rest else none

/-- Value of a non-empty all-digit string, `none` otherwise. -/
def parseDigits : List Nat → Option Nat
  | [] => none
  | s => parseDigitsAux 0 s

/-- Signed decimal integer literal (optional leading minus). -/
def parseIntTok : List Nat → Option Int
  | 45 :: rest => (parseDigits rest).map (fun n => -(n : Int))
  | s => (parseDigits s).map (fun n => (n : Int))

/-- Splits a list at the first occurrence of `..`. -/
def splitDotDot : List Nat → Option (List Nat × List Nat)
  | [] => none
  | 46 :: 46 :: rest => some ([], rest)
  | c :: rest => (splitDotDot rest).map (fun pr => (c :: pr.1, pr.2))

/-- Modelled from the spec: recognises brace-group content of the numeric-range
form `n1..n2` with integer bounds. -/
def numRange (content : List Nat) : Option (Int × Int) :=
  match splitDotDot content with
  | some (a, b) =>
    match parseIntTok a, parseIntTok b with
    | some lo, some hi => some (lo, hi)
    | _, _ => none
  | none => none

/-- Membership of a code point in a parsed character class. -/
def classHit (items : List (Nat × Nat)) (c : Nat) : Bool :=
  items.any (fun it => it.1 ≤ c && c ≤ it.2)

/-- Modelled from the spec: anchored EditorConfig glob matching of a pattern
against a path, with `*` (any run without the separator), `**` (any run
including separators), `?` (one non-separator character), `[seq]` classes with
negation and ranges, `\x7bs1,s2\x7d` alternation, `\x7bn1..n2\x7d` numeric
ranges, and backslash escapes.  Malformed class or brace syntax fails silently
(no match).  The fuel argument only bounds the recursion; every recursive call
shrinks pattern length plus path length, so `matchPat` is total at the fuel
used by `globMatch`. -/
def matchPat : Nat → List Nat → List Nat → Bool
  | 0, _, _ => false
  | _ + 1, [], path => path.isEmpty
  | fuel + 1, 42 :: 42 :: ps, path =>
    matchPat fuel ps path ||
      (match path with
       | _ :: pr => matchPat fuel (42 :: 42 :: ps) pr
       | [] => false)
  | fuel + 1, 42 :: ps, path =>
    matchPat fuel ps path ||
      (match path with
       | c :: pr => c != 47 && matchPat fuel (42 :: ps) pr
       | [] => false)
  | fuel + 1, 63 :: ps, path =>
    (match path with
     | c :: pr => c != 47 && matchPat fuel ps pr
     | [] => false)
  | fuel + 1, 91 :: ps, path =>
    let neg : Bool :=
      match ps with
      | 33 :: _ => true
      | 94 :: _ => true
      | _ => false
    let body : List Nat :=
      match ps with
      | 33 :: b => b
      | 94 :: b => b
      | b => b
    (match parseClassStart body, path with
     | some (items, rest), c :: pr =>
       (if neg then !(classHit items c) else classHit items c) && matchPat fuel rest pr
     | _, _ => false)
  | fuel + 1, 123 :: ps, path =>
    (match splitBraceAux ps 0 with
     | none =>
       (match path with
        | c :: pr => c == 123 && matchPat fuel ps pr
        | [] => false)
     | some (content, rest) =>
       match numRange content with
       | some (lo, hi) =>
         (intPrefixes path).any (fun pr =>
           decide (lo ≤ pr.1) && decide (pr.1 ≤ hi) && matchPat fuel rest pr.2)
       | none => (splitAlts content).any (fun alt => matchPat fuel (alt ++ rest) path))
  | fuel + 1, 92 :: c :: ps, path =>
    (match path with
     | d :: pr => c == d && matchPat fuel ps pr
     | [] => false)
  | fuel + 1, c :: ps, path =>
    (match path with
     | d :: pr => c == d && matchPat fuel ps pr
     | [] => false)

/-- Final segment (basename) of a `/`-separated path. -/
def lastSegment (path : Str) : Str :=
  (splitOnChar 47 path).getLastD []

/-- Modelled from the spec: evaluates a glob pattern against a path relative to
the pattern's defining directory.  A pattern containing no path separator is
matched against the final path segment only, so earlier segments are
irrelevant; a pattern containing a separator is anchored to the full relative
path. -/
def globMatch (pat path : Str) : Bool :=
  let target := if pat.contains 47 then path else lastSegment path
  matchPat (pat.length + target.length + 1) pat target

/-- A raw section: a glob pattern string plus the ordered (name, value) pairs
exactly as written.  The preamble is the section with the empty pattern. -/
structure RawSection where
  pattern : Str
  props : List (Str × Str)
deriving DecidableEq

deriving instance DecidableEq for Except

/-- Splits a line at the first `=` or `:` into name and value parts. -/
def splitNameVal : Str → Option (Str × Str)
  | [] => none
  | c :: rest =>
    if c = 61 ∨ c = 58 then some ([], rest)
    else
      match splitNameVal rest with
      | some (n, v) => some (c :: n, v)
      | none => none

/-- Modelled from the spec: the INI parsing loop over numbered lines.  Blank
lines and lines whose first non-whitespace character is `;` or `#` are ignored;
`[pattern]` lines start a new section with the pattern trimmed; `name = value`
or `name: value` lines add a trimmed property to the current section; any other
line stops parsing with its 1-based line number. -/
def iniLoop : List Str → Nat → RawSection → List RawSection → Except Nat (List RawSection)
  | [], _, cur, acc => .ok (acc ++ [cur])
  | line :: rest, n, cur, acc =>
    let t := trim line
    if t = [] then iniLoop rest (n + 1) cur acc
    else if t.head? = some 59 ∨ t.head? = some 35 then iniLoop rest (n + 1) cur acc
    else if t.head? = some 91 ∧ t.getLast? = some 93 then
      iniLoop rest (n + 1) ⟨trim ((t.drop 1).dropLast), []⟩ (acc ++ [cur])
    else
      match splitNameVal t with
      | some nv => iniLoop rest (n + 1) ⟨cur.pattern, cur.props ++ [(trim nv.1, trim nv.2)]⟩ acc
      | none => .error n

/-- Modelled from the spec: parses a configuration file's text into its ordered
sections (the preamble first), or returns the 1-based line number of the first
malformed line. -/
def iniParse (content : Str) : Except Nat (List RawSection) :=
  iniLoop (splitOnChar 10 content) 1 ⟨[], []⟩ []

/-- The final rule mapping and the in-memory file system are association lists. -/
abbrev Rules := List (Str × Str)

/-- In-memory file system: absolute file path to file contents. -/
abbrev FS := List (Str × Str)

/-- First value associated with a key in an association list. -/
def findRule : List (Str × Str) → Str → Option Str
  | [], _ => none
  | p :: rest, k => if p.1 = k then some p.2 else findRule rest k

/-- Associates a key with a value, removing any previous binding (the
overwriting insert of the rule mapping). -/
def setRule : Rules → Str → Str → Rules
  | [], k, v => [(k, v)]
  | p :: rest, k, v => if p.1 = k then setRule rest k v else p :: setRule rest k v

/-- Removes every binding of a key (the `unset` behaviour). -/
def unsetRule : Rules → Str → Rules
  | [], _ => []
  | p :: rest, k => if p.1 = k then unsetRule rest k else p :: unsetRule rest k

/-- Modelled from the spec: a `root = true` property, compared case-insensitively. -/
def isRootProp (p : Str × Str) : Bool :=
  lower p.1 == str ("root") && lower p.2 == str ("true")

/-- Modelled from the spec: whether a parsed file declares itself authoritative
(`root = true` in the preamble or any section). -/
def hasRoot (secs : List RawSection) : Bool :=
  secs.any (fun sec => sec.props.any isRootProp)

/-- Joins path segments with `/`. -/
def joinPath (segs : List Str) : Str :=
  match segs with
  | [] => []
  | s :: rest => rest.foldl (fun acc seg => acc ++ 47 :: seg) s

/-- Modelled from the spec: the path walker.  For an absolute target path it
lists, nearest first, each ancestor directory's candidate configuration file
path paired with the target path relative to that directory, from the target's
immediate parent up to and including the filesystem root. -/
def candidates (conf : Str) (target : Str) : List (Str × Str) :=
  let segs := splitOnChar 47 target
  (List.range (segs.length - 1)).reverse.map (fun i =>
    (joinPath (segs.take (i + 1) ++ [conf]), joinPath (segs.drop (i + 1))))

/-- Modelled from the spec: walks the candidate files nearest first, skipping
absent files, parsing present ones, stopping the walk after a file that
declares `root = true`, and aborting the whole resolution with the offending
file path and line number on the first syntax error. -/
def collectFiles (fs : FS) : List (Str × Str) → Except (Str × Nat) (List (List RawSection × Str))
  | [] => .ok []
  | cand :: rest =>
    match findRule fs cand.1 with
    | none => collectFiles fs rest
    | some content =>
      match iniParse content with
      | .error line => .error (cand.1, line)
      | .ok secs =>
        if hasRoot secs then .ok [(secs, cand.2)]
        else
          match collectFiles fs rest with
          | .error e => .error e
          | .ok files => .ok ((secs, cand.2) :: files)

/-- Modelled from the spec: applies one property to the rule mapping.  The name
is lower-cased; the value `unset` removes the name; the `root = true` marker is
not itself a rule. -/
def applyProp (rules : Rules) (p : Str × Str) : Rules :=
  if isRootProp p then rules
  else if p.2 = str ("unset") then unsetRule rules (lower p.1)
  else setRule rules (lower p.1) p.2

/-- Applies a section's properties in order. -/
def applyProps (rules : Rules) (props : List (Str × Str)) : Rules :=
  props.foldl applyProp rules

/-- Modelled from the spec: applies a section when its pattern matches the
target's relative path (the empty preamble pattern always matches). -/
def applyRawSection (rel : Str) (rules : Rules) (sec : RawSection) : Rules :=
  if sec.pattern = [] ∨ globMatch sec.pattern rel = true then applyProps rules sec.props
  else rules

/-- Applies all sections of one parsed file, preamble first then file order. -/
def applyFile (rules : Rules) (file : List RawSection × Str) : Rules :=
  file.1.foldl (applyRawSection file.2) rules

/-- Modelled from the spec: merges the files in order, so with the files given
root-most first the file closest to the target is applied last and wins ties. -/
def mergeAll (files : List (List RawSection × Str)) : Rules :=
  files.foldl applyFile []

/-- Return code of the C library for a relative target path (editorconfig-sys). -/
def EDITORCONFIG_PARSE_NOT_FULL_PATH : Int := -2

/-- Return code of the C library for a memory error (editorconfig-sys). -/
def EDITORCONFIG_PARSE_MEMORY_ERROR : Int := -3

/-- Return code of the C library for a too-new requested version (editorconfig-sys). -/
def EDITORCONFIG_PARSE_VERSION_TOO_NEW : Int := -4

/-- Whether a path is absolute (starts with the separator). -/
def isAbsolute (target : Str) : Bool :=
  match target with
  | 47 :: _ => true
  | _ => false

/-- Encodes the rule mapping back to byte strings, as stored by the C library. -/
def encodeRules (rules : Rules) : List (List Nat × List Nat) :=
  rules.map (fun p => (utf8Encode p.1, utf8Encode p.2))

/-- Rule storage and error-file state that the C library keeps in a handle. -/
structure CoreState where
  rules : List (List Nat × List Nat)
  errFile : Option Str
deriving DecidableEq

/-- Modelled from the spec: the C library's `editorconfig_parse`.  It fails
with the not-full-path code before any file access when the target is not
absolute, fails with the version-too-new code before any file access when the
requested version exceeds the library version, and otherwise walks, parses and
merges the candidate files; a syntax error yields its positive 1-based line
number as the return code together with the offending file path, and success
yields code 0 together with the merged rules. -/
def editorconfig_parse (ver : Version) (conf : Str) (fs : FS) (target : Str) :
    Int × CoreState :=
  if isAbsolute target = false then (EDITORCONFIG_PARSE_NOT_FULL_PATH, ⟨[], none⟩)
  else if Version.cmp ver libVersion = .gt then (EDITORCONFIG_PARSE_VERSION_TOO_NEW, ⟨[], none⟩)
  else
    match collectFiles fs (candidates conf target) with
    | .error e => ((e.2 : Int), ⟨[], some e.1⟩)
    | .ok files => (0, ⟨encodeRules (mergeAll files.reverse), none⟩)

/-- Modelled from the spec: the C library's error message table; every positive
code is a parse error at that line, and the stable strings match the spec. -/
def editorconfig_get_error_msg (code : Int) : Str :=
  if 0 < code then str ("Failed to parse file.")
  else if code = EDITORCONFIG_PARSE_NOT_FULL_PATH then str ("Input file must be a full path name.")
  else if code = EDITORCONFIG_PARSE_MEMORY_ERROR then str ("Memory error.")
  else if code = EDITORCONFIG_PARSE_VERSION_TOO_NEW then str ("Required version is greater than the current version.")
  else str ("Unknown error.")

/-- Parsing errors returned by `EditorConfigHandle.parse` (src/lib.rs lines 52-65). -/
inductive ParseError where
  | VersionTooNewError
  | MemoryError
  | NotFullPathError
  | LineError (line : Int)
deriving DecidableEq

/-- EditorConfig handle (src/lib.rs lines 17-21): the requested version and the
stored configuration filename, plus the C-side state of the last parse. -/
structure EditorConfigHandle where
  version : Version
  config_filename : Option Str
  core : CoreState
deriving DecidableEq

/-- Creates a new handle (src/lib.rs lines 77-87); the C library starts with
version 0.0.0, no custom configuration filename and no rules. -/
def EditorConfigHandle.new : EditorConfigHandle := ⟨⟨0, 0, 0⟩, none, ⟨[], none⟩⟩

/-- Returns the version stored in the handle (src/lib.rs lines 100-113). -/
def EditorConfigHandle.get_version (h : EditorConfigHandle) : Version := h.version

/-- Sets the requested version (src/lib.rs lines 125-134). -/
def EditorConfigHandle.set_version (h : EditorConfigHandle) (v : Version) : EditorConfigHandle :=
  { h with version := v }

/-- Returns the configuration filename iff it was previously set
(src/lib.rs lines 141-151); `none` means the default is used. -/
def EditorConfigHandle.get_config_filename (h : EditorConfigHandle) : Option Str :=
  h.config_filename

/-- Sets a custom configuration filename (src/lib.rs lines 164-176); the Rust
code panics (modelled as `Except.error`) when the filename holds an interior
NUL byte, because `CString::new` fails. -/
def EditorConfigHandle.set_config_filename (h : EditorConfigHandle) (f : Str) :
    Except Str EditorConfigHandle :=
  if (0 : Nat) ∈ f then .error (str ("Failed to create CString from filename"))
  else .ok { h with config_filename := some f }

/-- The configuration filename resolution uses: the stored one, or the default
`.editorconfig` when none was set. -/
def EditorConfigHandle.effectiveConfigFilename (h : EditorConfigHandle) : Str :=
  h.config_filename.getD (str (".editorconfig"))

/-- The match on the C return code inside `parse` (src/lib.rs lines 199-206):
0 is success, the three negative constants map to their errors, any other
positive code is a line error, and anything else is unreachable (`none`). -/
def mapParseCode (code : Int) : Option (Option ParseError) :=
  if code = 0 then some none
  else if code = EDITORCONFIG_PARSE_VERSION_TOO_NEW then some (some .VersionTooNewError)
  else if code = EDITORCONFIG_PARSE_MEMORY_ERROR then some (some .MemoryError)
  else if code = EDITORCONFIG_PARSE_NOT_FULL_PATH then some (some .NotFullPathError)
  else if code > 0 then some (some (.LineError code))
  else none

/-- Searches an absolute path for the corresponding EditorConfig rules
(src/lib.rs lines 192-207), over an explicit in-memory file system.  The
`CString::new` panic on an interior NUL is modelled as `Except.error`, as is
the `unreachable` arm of the match on the return code. -/
def EditorConfigHandle.parse (h : EditorConfigHandle) (fs : FS) (target : Str) :
    Except Str (Option ParseError × EditorConfigHandle) :=
  if (0 : Nat) ∈ target then .error (str ("Failed to create CString from path"))
  else
    let r := editorconfig_parse h.version h.effectiveConfigFilename fs target
    match mapParseCode r.1 with
    | some pe => .ok (pe, { h with core := r.2 })
    | none => .error (str ("internal error: entered unreachable code"))

/-- `parse` on an OS-level byte path: `Path::to_str` fails (a panic, modelled
as `Except.error`) when the bytes are not valid UTF-8 (src/lib.rs line 193). -/
def EditorConfigHandle.parseOsPath (h : EditorConfigHandle) (fs : FS) (bytes : List Nat) :
    Except Str (Option ParseError × EditorConfigHandle) :=
  match utf8Decode bytes with
  | none => .error (str ("Invalid UTF-8 path"))
  | some s => h.parse fs s

/-- Returns the path of the invalid configuration file after an erroneous
parse (src/lib.rs lines 217-226). -/
def EditorConfigHandle.get_error_file (h : EditorConfigHandle) : Option Str :=
  h.core.errFile

/-- Returns the number of rules found after parsing (src/lib.rs lines 239-241). -/
def EditorConfigHandle.get_rule_count (h : EditorConfigHandle) : Int :=
  h.core.rules.length

/-- One step of `get_rules` (src/lib.rs lines 277-286): a (name, value) byte
pair is inserted into the map only when both decode as UTF-8, and is silently
skipped otherwise. -/
def addRulePair (acc : Rules) (p : List Nat × List Nat) : Rules :=
  match utf8Decode p.1, utf8Decode p.2 with
  | some n, some v => setRule acc n v
  | _, _ => acc

/-- The map built by `get_rules` from the indexed rule pairs, in index order. -/
def getRulePairs (pairs : List (List Nat × List Nat)) : Rules :=
  pairs.foldl addRulePair []

/-- Returns a map of all rules found after parsing (src/lib.rs lines 257-290). -/
def EditorConfigHandle.get_rules (h : EditorConfigHandle) : Rules :=
  getRulePairs h.core.rules

/-- Gets the error message for a parsing error from the C library's message
table (src/lib.rs lines 316-332). -/
def get_error_message (pe : ParseError) : Option Str :=
  let code :=
    match pe with
    | .VersionTooNewError => EDITORCONFIG_PARSE_VERSION_TOO_NEW
    | .MemoryError => EDITORCONFIG_PARSE_MEMORY_ERROR
    | .NotFullPathError => EDITORCONFIG_PARSE_NOT_FULL_PATH
    | .LineError n => n
  some (editorconfig_get_error_msg code)

/-- Rules visible to the caller after a successful parse of the target, or
`none` when the parse fails or errors. -/
def parsedRules (h : EditorConfigHandle) (fs : FS) (target : Str) : Option Rules :=
  match h.parse fs target with
  | .ok (none, h2) => some h2.get_rules
  | _ => none

/-- The two-file configuration of the end-to-end scenario: a root file at `/`
and a nearer file at `/a`. -/
def fsEndToEnd : FS :=
  [(str ("/.editorconfig"), str ("root=true\n[*]\ncharset=utf-8")),
   (str ("/a/.editorconfig"), str ("[*.rs]\nindent_style=space"))]

/-- File system of the custom-configuration-filename scenario. -/
def fsCustomName : FS :=
  [(str ("/.myconf"), str ("[*]\nindent_size=4"))]

/-! ### Association-list lemmas -/

theorem findRule_setRule_self (m : Rules) (k v : Str) :
    findRule (setRule m k v) k = some v := by
  induction m with
  | nil => simp [setRule, findRule]
  | cons p rest ih =>
    by_cases h : p.1 = k
    · simp [setRule, h, ih]
    · simp [setRule, h, findRule, ih]

theorem findRule_setRule_ne (m : Rules) (k v k' : Str) (hne : k' ≠ k) :
    findRule (setRule m k v) k' = findRule m k' := by
  have hkk : ¬ k = k' := fun h2 => hne h2.symm
  induction m with
  | nil => simp [setRule, findRule, hkk]
  | cons p rest ih =>
    by_cases h : p.1 = k
    · simp [setRule, h, findRule, hkk, ih]
    · by_cases h2 : p.1 = k'
      · simp [setRule, h, findRule, h2, hkk, hne, ih]
      · simp [setRule, h, findRule, h2, ih]

theorem findRule_unsetRule_self (m : Rules) (k : Str) :
    findRule (unsetRule m k) k = none := by
  induction m with
  | nil => simp [unsetRule, findRule]
  | cons p rest ih =>
    by_cases h : p.1 = k
    · simp [unsetRule, h, ih]
    · simp [unsetRule, h, findRule, ih]

theorem findRule_unsetRule_ne (m : Rules) (k k' : Str) (hne : k' ≠ k) :
    findRule (unsetRule m k) k' = findRule m k' := by
  have hkk : ¬ k = k' := fun h2 => hne h2.symm
  induction m with
  | nil => simp [unsetRule, findRule]
  | cons p rest ih =>
    by_cases h : p.1 = k
    · simp [unsetRule, h, findRule, hkk, ih]
    · by_cases h2 : p.1 = k'
      · simp [unsetRule, h, findRule, h2, hne, ih]
      · simp [unsetRule, h, findRule, h2, ih]

theorem setRule_length_le (m : Rules) (k v : Str) :
    (setRule m k v).length ≤ m.length + 1 := by
  induction m with
  | nil => simp [setRule]
  | cons p rest ih =>
    by_cases h : p.1 = k
    · simp only [setRule, if_pos h, List.length_cons]
      exact le_trans ih (by omega)
    · simp only [setRule, if_neg h, List.length_cons]
      omega

theorem intCmp_eq_lt (a b : Int) : intCmp a b = Ordering.lt ↔ a < b := by
  unfold intCmp
  split_ifs with h1 h2 <;> simp_all

theorem intCmp_eq_eq (a b : Int) : intCmp a b = Ordering.eq ↔ a = b := by
  unfold intCmp
  split_ifs with h1 h2 <;> simp_all
  all_goals omega

theorem intCmp_eq_gt (a b : Int) : intCmp a b = Ordering.gt ↔ b < a := by
  unfold intCmp
  split_ifs with h1 h2 <;> simp_all
  all_goals omega

theorem version_lt_iff (u v : Version) :
    Version.lt u v ↔
      (u.major < v.major ∨
        (u.major = v.major ∧
          (u.minor < v.minor ∨ (u.minor = v.minor ∧ u.patch < v.patch)))) := by
  obtain ⟨a, b, c⟩ := u
  obtain ⟨d, e, f⟩ := v
  simp only [Version.lt, Version.cmp]
  by_cases h1 : a < d
  · rw [(intCmp_eq_lt a d).mpr h1]
    simp [Ordering.then]
    omega
  · by_cases h1g : d < a
    · rw [(intCmp_eq_gt a d).mpr h1g]
      simp [Ordering.then]
      omega
    · rw [(intCmp_eq_eq a d).mpr (by omega)]
      simp only [Ordering.then]
      by_cases h2 : b < e
      · rw [(intCmp_eq_lt b e).mpr h2]
        simp
        omega
      · by_cases h2g : e < b
        · rw [(intCmp_eq_gt b e).mpr h2g]
          simp
          omega
        · rw [(intCmp_eq_eq b e).mpr (by omega)]
          simp only [Ordering.then]
          rw [intCmp_eq_lt]
          omega

/-! ### Claim theorems: Version (C6, C7) -/

/-- C6: `Version::new` rejects invalid values at construction: when at least one
component is negative it panics (modelled as `none`) and constructs no
`Version`; when all components are non-negative it returns the `Version` whose
fields equal the given arguments. -/
theorem version_new_checks (ma mi pa : Int) :
    ((ma < 0 ∨ mi < 0 ∨ pa < 0) → Version.new ma mi pa = none) ∧
    (0 ≤ ma → 0 ≤ mi → 0 ≤ pa → Version.new ma mi pa = some ⟨ma, mi, pa⟩) := by
  constructor
  · intro h
    simp [Version.new, h]
  · intro h1 h2 h3
    have : ¬ (ma < 0 ∨ mi < 0 ∨ pa < 0) := by omega
    simp [Version.new, this]

theorem version_new_checks_witness :
    Version.new (-1) 2 3 = none ∧ Version.new 1 2 3 = some ⟨1, 2, 3⟩ :=
  ⟨(version_new_checks (-1) 2 3).1 (Or.inl (by decide)),
   (version_new_checks 1 2 3).2 (by decide) (by decide) (by decide)⟩

/-- C7: the derived ordering on `Version` is the total lexicographic order on
(major, minor, patch): `u` is less than `v` iff the major components compare
less, or are equal and the minors compare less, or both are equal and the
patches compare less; and any two versions are comparable. -/
theorem version_cmp_lexicographic (u v : Version) :
    (Version.lt u v ↔
      (u.major < v.major ∨
        (u.major = v.major ∧
          (u.minor < v.minor ∨ (u.minor = v.minor ∧ u.patch < v.patch))))) ∧
    (Version.lt u v ∨ u = v ∨ Version.lt v u) := by
  refine ⟨version_lt_iff u v, ?_⟩
  rw [version_lt_iff, version_lt_iff]
  obtain ⟨a, b, c⟩ := u
  obtain ⟨d, e, f⟩ := v
  simp only [Version.mk.injEq]
  omega

/-! ### Claim theorem: error messages (C3) -/

/-- C3: `get_error_message` returns exactly the four stable strings of the
error-message table: the parse-failure string for every `LineError(n)` with
positive `n`, and the fixed strings for `NotFullPathError`, `MemoryError` and
`VersionTooNewError`. -/
theorem get_error_message_strings :
    (∀ n : Int, 0 < n →
      get_error_message (.LineError n) = some (str ("Failed to parse file."))) ∧
    get_error_message .NotFullPathError = some (str ("Input file must be a full path name.")) ∧
    get_error_message .MemoryError = some (str ("Memory error.")) ∧
    get_error_message .VersionTooNewError =
      some (str ("Required version is greater than the current version.")) := by
  refine ⟨fun n hn => ?_, by decide, by decide, by decide⟩
  simp [get_error_message, editorconfig_get_error_msg, hn]

theorem get_error_message_strings_witness :
    get_error_message (.LineError 23) = some (str ("Failed to parse file.")) :=
  get_error_message_strings.1 23 (by decide)

/-! ### Claim theorems: glob matching (C5) -/

/-- C5 counterexample: the claim states that pattern `*.rs` does not match
`src/lib.rs`, but a separator-free pattern is matched against the final path
segment only, with earlier segments irrelevant, so it does match. -/
theorem glob_star_matches_subdir_counterexample :
    globMatch (str ("*.rs")) (str ("src/lib.rs")) = true := by decide

/-- C5 amended: the glob matcher satisfies, for paths relative to the pattern's
defining directory: `*.rs` matches `lib.rs` and also matches `src/lib.rs`
(a separator-free pattern is matched against the basename, so earlier path
segments are irrelevant); `**.rs` matches `src/lib.rs`; `file\x7b1,2\x7d.txt`
matches `file1.txt` and `file2.txt` and does not match `file3.txt`; and
`[0-9].txt` matches `5.txt` and does not match `a.txt`. -/
theorem glob_matcher_facts :
    globMatch (str ("*.rs")) (str ("lib.rs")) = true ∧
    globMatch (str ("*.rs")) (str ("src/lib.rs")) = true ∧
    globMatch (str ("**.rs")) (str ("src/lib.rs")) = true ∧
    globMatch (str ("file\x7b1,2\x7d.txt")) (str ("file1.txt")) = true ∧
    globMatch (str ("file\x7b1,2\x7d.txt")) (str ("file2.txt")) = true ∧
    globMatch (str ("file\x7b1,2\x7d.txt")) (str ("file3.txt")) = false ∧
    globMatch (str ("[0-9].txt")) (str ("5.txt")) = true ∧
    globMatch (str ("[0-9].txt")) (str ("a.txt")) = false := by decide

/-! ### Merge dominance lemmas (for C4) -/

theorem applyProps_dom (props : List (Str × Str)) (k : Str) :
    ∀ m1 m2 : Rules,
      findRule (applyProps m1 props) k = findRule (applyProps m2 props) k ∨
      (findRule (applyProps m1 props) k = findRule m1 k ∧
       findRule (applyProps m2 props) k = findRule m2 k) := by
  induction props with
  | nil => intro m1 m2; right; exact ⟨rfl, rfl⟩
  | cons p props ih =>
    intro m1 m2
    simp only [applyProps, List.foldl_cons] at *
    rcases ih (applyProp m1 p) (applyProp m2 p) with h | ⟨h1, h2⟩
    · left; exact h
    · by_cases hroot : isRootProp p = true
      · have happ : ∀ m : Rules, applyProp m p = m := by
          intro m; simp [applyProp, hroot]
        rw [happ] at h1 h2
        simp only [happ]
        right; exact ⟨h1, h2⟩
      · by_cases hunset : p.2 = str ("unset")
        · have happ : ∀ m : Rules, applyProp m p = unsetRule m (lower p.1) := by
            intro m; simp [applyProp, hroot, hunset]
          rw [happ] at h1 h2
          simp only [happ]
          by_cases hk : k = lower p.1
          · left
            subst hk
            rw [h1, h2, findRule_unsetRule_self, findRule_unsetRule_self]
          · right
            rw [h1, h2, findRule_unsetRule_ne _ _ _ hk, findRule_unsetRule_ne _ _ _ hk]
            exact ⟨rfl, rfl⟩
        · have happ : ∀ m : Rules, applyProp m p = setRule m (lower p.1) p.2 := by
            intro m; simp [applyProp, hroot, hunset]
          rw [happ] at h1 h2
          simp only [happ]
          by_cases hk : k = lower p.1
          · left
            subst hk
            rw [h1, h2, findRule_setRule_self, findRule_setRule_self]
          · right
            rw [h1, h2, findRule_setRule_ne _ _ _ _ hk, findRule_setRule_ne _ _ _ _ hk]
            exact ⟨rfl, rfl⟩

theorem applyRawSection_dom (rel : Str) (sec : RawSection) (k : Str) (m1 m2 : Rules) :
    findRule (applyRawSection rel m1 sec) k = findRule (applyRawSection rel m2 sec) k ∨
    (findRule (applyRawSection rel m1 sec) k = findRule m1 k ∧
     findRule (applyRawSection rel m2 sec) k = findRule m2 k) := by
  unfold applyRawSection
  split_ifs with h
  · exact applyProps_dom sec.props k m1 m2
  · right; exact ⟨rfl, rfl⟩

theorem applySections_dom (secs : List RawSection) (rel : Str) (k : Str) :
    ∀ m1 m2 : Rules,
      findRule (secs.foldl (applyRawSection rel) m1) k =
        findRule (secs.foldl (applyRawSection rel) m2) k ∨
      (findRule (secs.foldl (applyRawSection rel) m1) k = findRule m1 k ∧
       findRule (secs.foldl (applyRawSection rel) m2) k = findRule m2 k) := by
  induction secs with
  | nil => intro m1 m2; right; exact ⟨rfl, rfl⟩
  | cons sec secs ih =>
    intro m1 m2
    simp only [List.foldl_cons]
    rcases ih (applyRawSection rel m1 sec) (applyRawSection rel m2 sec) with h | ⟨h1, h2⟩
    · left; exact h
    · rcases applyRawSection_dom rel sec k m1 m2 with g | ⟨g1, g2⟩
      · left; rw [h1, h2, g]
      · right; exact ⟨h1.trans g1, h2.trans g2⟩

theorem applyFile_dom (file : List RawSection × Str) (k : Str) (m1 m2 : Rules) :
    findRule (applyFile m1 file) k = findRule (applyFile m2 file) k ∨
    (findRule (applyFile m1 file) k = findRule m1 k ∧
     findRule (applyFile m2 file) k = findRule m2 k) := by
  simpa [applyFile] using applySections_dom file.1 file.2 k m1 m2

/-! ### Claim theorem: merge precedence and end-to-end resolution (C4) -/

/-- C4: among the files on the walk, the file closer to the target is applied
later in the merge, so when it determines a value for a property name that
value wins in the final rule mapping regardless of what any farther file set;
and concretely, resolving `/a/lib.rs` against `/.editorconfig` (root=true, `[*]`
charset=utf-8) and `/a/.editorconfig` (`[*.rs]` indent_style=space) yields
exactly charset=utf-8 and indent_style=space, while resolving `/a/lib.txt`
yields exactly charset=utf-8. -/
theorem merge_closer_file_wins :
    (∀ (files : List (List RawSection × Str)) (A B : List RawSection × Str) (k v : Str),
      findRule (applyFile [] B) k = some v →
      findRule (mergeAll (files ++ [A, B])) k = some v) ∧
    parsedRules EditorConfigHandle.new fsEndToEnd (str ("/a/lib.rs")) =
      some [(str ("charset"), str ("utf-8")), (str ("indent_style"), str ("space"))] ∧
    parsedRules EditorConfigHandle.new fsEndToEnd (str ("/a/lib.txt")) =
      some [(str ("charset"), str ("utf-8"))] := by
  refine ⟨?_, by decide, by decide⟩
  intro files A B k v hB
  have hsplit : mergeAll (files ++ [A, B]) = applyFile (applyFile (mergeAll files) A) B := by
    simp [mergeAll, List.foldl_append]
  rw [hsplit]
  rcases applyFile_dom B k (applyFile (mergeAll files) A) [] with h | ⟨h1, h2⟩
  · rw [h, hB]
  · rw [hB] at h2
    simp [findRule] at h2

theorem merge_closer_file_wins_witness :
    findRule
      (mergeAll
        ([] ++
          [([RawSection.mk [] [(str ("k"), str ("other"))]], str ("x")),
           ([RawSection.mk [] [(str ("k"), str ("v"))]], str ("x"))]))
      (str ("k")) = some (str ("v")) :=
  merge_closer_file_wins.1 []
    ([RawSection.mk [] [(str ("k"), str ("other"))]], str ("x"))
    ([RawSection.mk [] [(str ("k"), str ("v"))]], str ("x"))
    (str ("k")) (str ("v")) (by decide)

/-! ### Claim theorem: get_rules (C10) -/

theorem getRulePairs_length_le (pairs : List (List Nat × List Nat)) :
    ∀ acc : Rules, (pairs.foldl addRulePair acc).length ≤ acc.length + pairs.length := by
  induction pairs with
  | nil => intro acc; simp
  | cons p pairs ih =>
    intro acc
    simp only [List.foldl_cons, List.length_cons]
    refine le_trans (ih (addRulePair acc p)) ?_
    have hstep : (addRulePair acc p).length ≤ acc.length + 1 := by
      cases hn : utf8Decode p.1 with
      | none => simp [addRulePair, hn]
      | some n =>
        cases hv : utf8Decode p.2 with
        | none => simp [addRulePair, hn, hv]
        | some v =>
          simp only [addRulePair, hn, hv]
          exact setRule_length_le acc n v
    omega

/-- C10: after any parse, `get_rules` returns a map with at most
`get_rule_count` entries; a rule pair whose name or value bytes are not valid
UTF-8 is silently omitted; and when two rule indices decode to the same name,
the value at the higher index overwrites the earlier one (last wins). -/
theorem get_rules_decoded_map :
    (∀ h : EditorConfigHandle,
      ((EditorConfigHandle.get_rules h).length : Int) ≤ EditorConfigHandle.get_rule_count h) ∧
    (∀ (l1 l2 : List (List Nat × List Nat)) (n v : List Nat),
      (utf8Decode n = none ∨ utf8Decode v = none) →
      getRulePairs (l1 ++ (n, v) :: l2) = getRulePairs (l1 ++ l2)) ∧
    (∀ (l : List (List Nat × List Nat)) (n v : List Nat) (nm vl : Str),
      utf8Decode n = some nm → utf8Decode v = some vl →
      findRule (getRulePairs (l ++ [(n, v)])) nm = some vl) := by
  refine ⟨?_, ?_, ?_⟩
  · intro h
    have hle := getRulePairs_length_le h.core.rules []
    simp only [List.length_nil, Nat.zero_add] at hle
    unfold EditorConfigHandle.get_rules EditorConfigHandle.get_rule_count getRulePairs
    exact_mod_cast hle
  · intro l1 l2 n v hbad
    simp only [getRulePairs, List.foldl_append, List.foldl_cons]
    have hskip : addRulePair (List.foldl addRulePair [] l1) (n, v) =
        List.foldl addRulePair [] l1 := by
      rcases hbad with hb | hb
      · simp [addRulePair, hb]
      · cases hn : utf8Decode n <;> simp [addRulePair, hn, hb]
    rw [hskip]
  · intro l n v nm vl hn hv
    simp only [getRulePairs, List.foldl_append, List.foldl_cons, List.foldl_nil]
    simp only [addRulePair, hn, hv]
    exact findRule_setRule_self _ nm vl

theorem get_rules_decoded_map_witness :
    getRulePairs [([255], [97])] = getRulePairs [] ∧
    findRule (getRulePairs ([([97], [98])] ++ [([97], [99])])) [97] = some [99] :=
  ⟨get_rules_decoded_map.2.1 [] [] [255] [97] (Or.inl (by decide)),
   get_rules_decoded_map.2.2 [([97], [98])] [97] [99] [97] [99] (by decide) (by decide)⟩

/-! ### Parse-code lemmas (for C1, C2, C9) -/

theorem iniLoop_error_le (lines : List Str) :
    ∀ (n : Nat) (cur : RawSection) (acc : List RawSection) (m : Nat),
      iniLoop lines n cur acc = .error m → n ≤ m := by
  induction lines with
  | nil => intro n cur acc m h; simp [iniLoop] at h
  | cons line rest ih =>
    intro n cur acc m h
    simp only [iniLoop] at h
    split_ifs at h with h1 h2 h3
    · exact Nat.le_of_succ_le (ih _ _ _ _ h)
    · exact Nat.le_of_succ_le (ih _ _ _ _ h)
    · exact Nat.le_of_succ_le (ih _ _ _ _ h)
    · cases hs : splitNameVal (trim line) with
      | some nv =>
        rw [hs] at h
        exact Nat.le_of_succ_le (ih _ _ _ _ h)
      | none =>
        rw [hs] at h
        injection h with h2
        omega

theorem iniParse_error_pos (content : Str) (m : Nat) (h : iniParse content = .error m) :
    1 ≤ m :=
  iniLoop_error_le _ 1 _ _ m h

theorem collectFiles_error_pos (fs : FS) (cands : List (Str × Str)) :
    ∀ (f : Str) (m : Nat), collectFiles fs cands = .error (f, m) → 1 ≤ m := by
  induction cands with
  | nil => intro f m h; simp [collectFiles] at h
  | cons cand rest ih =>
    intro f m h
    simp only [collectFiles] at h
    cases hc : findRule fs cand.1 with
    | none =>
      simp only [hc] at h
      exact ih f m h
    | some content =>
      simp only [hc] at h
      cases hp : iniParse content with
      | error line =>
        simp only [hp] at h
        injection h with h2
        have hlm : line = m := (Prod.mk.injEq _ _ _ _).mp h2 |>.2
        exact hlm ▸ iniParse_error_pos content line hp
      | ok secs =>
        simp only [hp] at h
        split_ifs at h with hr
        cases hcf : collectFiles fs rest with
        | error e =>
          simp only [hcf] at h
          injection h with h2
          exact ih f m (h2 ▸ hcf)
        | ok files =>
          simp only [hcf] at h
          simp at h

theorem editorconfig_parse_abs_code (ver : Version) (conf : Str) (fs : FS) (target : Str)
    (habs : isAbsolute target = true) :
    (editorconfig_parse ver conf fs target).1 = EDITORCONFIG_PARSE_VERSION_TOO_NEW ∨
    (editorconfig_parse ver conf fs target).1 = 0 ∨
    1 ≤ (editorconfig_parse ver conf fs target).1 := by
  unfold editorconfig_parse
  split_ifs with h1 h2
  · rw [habs] at h1; cases h1
  · left; rfl
  · cases hc : collectFiles fs (candidates conf target) with
    | error e =>
      right; right
      simp only [hc]
      have := collectFiles_error_pos fs (candidates conf target) e.1 e.2 (by rw [hc])
      exact_mod_cast this
    | ok files =>
      right; left
      simp [hc]

theorem editorconfig_parse_code_cases (ver : Version) (conf : Str) (fs : FS) (target : Str) :
    (editorconfig_parse ver conf fs target).1 = EDITORCONFIG_PARSE_NOT_FULL_PATH ∨
    (editorconfig_parse ver conf fs target).1 = EDITORCONFIG_PARSE_VERSION_TOO_NEW ∨
    (editorconfig_parse ver conf fs target).1 = 0 ∨
    1 ≤ (editorconfig_parse ver conf fs target).1 := by
  cases habs : isAbsolute target with
  | false => left; simp [editorconfig_parse, habs]
  | true =>
    right
    exact editorconfig_parse_abs_code ver conf fs target habs

theorem mapParseCode_pos (code : Int) (h : 1 ≤ code) :
    mapParseCode code = some (some (.LineError code)) := by
  unfold mapParseCode EDITORCONFIG_PARSE_VERSION_TOO_NEW EDITORCONFIG_PARSE_MEMORY_ERROR
    EDITORCONFIG_PARSE_NOT_FULL_PATH
  split_ifs with h1 h2 h3 h4 h5
  · exact absurd h1 (by omega)
  · exact absurd h2 (by omega)
  · exact absurd h3 (by omega)
  · exact absurd h4 (by omega)
  · rfl
  · exact absurd h (by omega)

theorem mapParseCode_total (code : Int)
    (h : code = EDITORCONFIG_PARSE_NOT_FULL_PATH ∨ code = EDITORCONFIG_PARSE_VERSION_TOO_NEW ∨
      code = 0 ∨ 1 ≤ code) :
    ∃ pe, mapParseCode code = some pe := by
  rcases h with h | h | h | h
  · exact ⟨some .NotFullPathError, by subst h; decide⟩
  · exact ⟨some .VersionTooNewError, by subst h; decide⟩
  · exact ⟨none, by subst h; decide⟩
  · exact ⟨some (.LineError code), mapParseCode_pos code h⟩

theorem mapParseCode_not_relative (code : Int)
    (h : code = EDITORCONFIG_PARSE_VERSION_TOO_NEW ∨ code = 0 ∨ 1 ≤ code) :
    ∃ pe, mapParseCode code = some pe ∧ pe ≠ some ParseError.NotFullPathError := by
  rcases h with h | h | h
  · exact ⟨some .VersionTooNewError, by subst h; decide, by simp⟩
  · exact ⟨none, by subst h; decide, by simp⟩
  · exact ⟨some (.LineError code), mapParseCode_pos code h, by simp⟩

/-! ### Claim theorem: relative paths rejected before any read (C2) -/

/-- C2: for every target path that is not absolute, `parse` returns
`NotFullPathError`, the result does not depend on any configuration file and no
rules are accumulated; for every absolute (NUL-free, hence readable without a
panic) target, `parse` succeeds and never returns `NotFullPathError`. -/
theorem relative_path_rejected :
    (∀ (h : EditorConfigHandle) (fs fs2 : FS) (target : Str),
      (0 : Nat) ∉ target → isAbsolute target = false →
      EditorConfigHandle.parse h fs target =
        .ok (some .NotFullPathError, { h with core := ⟨[], none⟩ }) ∧
      EditorConfigHandle.parse h fs target = EditorConfigHandle.parse h fs2 target) ∧
    (∀ (h : EditorConfigHandle) (fs : FS) (target : Str),
      (0 : Nat) ∉ target → isAbsolute target = true →
      ∃ (r : Option ParseError) (h2 : EditorConfigHandle),
        EditorConfigHandle.parse h fs target = .ok (r, h2) ∧
        r ≠ some ParseError.NotFullPathError) := by
  constructor
  · intro h fs fs2 target hnul hrel
    have hcore : ∀ fs3 : FS,
        editorconfig_parse h.version h.effectiveConfigFilename fs3 target =
          (EDITORCONFIG_PARSE_NOT_FULL_PATH, ⟨[], none⟩) := by
      intro fs3
      simp [editorconfig_parse, hrel]
    constructor
    · simp only [EditorConfigHandle.parse, hcore]
      rw [if_neg hnul]
      rfl
    · simp only [EditorConfigHandle.parse, hcore]
  · intro h fs target hnul habs
    obtain ⟨pe, hpe, hne⟩ := mapParseCode_not_relative
      (editorconfig_parse h.version h.effectiveConfigFilename fs target).1
      (editorconfig_parse_abs_code h.version h.effectiveConfigFilename fs target habs)
    refine ⟨pe,
      { h with core := (editorconfig_parse h.version h.effectiveConfigFilename fs target).2 },
      ?_, hne⟩
    simp only [EditorConfigHandle.parse]
    rw [if_neg hnul, hpe]

theorem relative_path_rejected_witness :
    (EditorConfigHandle.parse EditorConfigHandle.new [] (str ("rel.txt")) =
      .ok (some .NotFullPathError, { EditorConfigHandle.new with core := ⟨[], none⟩ }) ∧
     EditorConfigHandle.parse EditorConfigHandle.new [] (str ("rel.txt")) =
       EditorConfigHandle.parse EditorConfigHandle.new fsEndToEnd (str ("rel.txt"))) ∧
    (∃ (r : Option ParseError) (h2 : EditorConfigHandle),
      EditorConfigHandle.parse EditorConfigHandle.new [] (str ("/x")) = .ok (r, h2) ∧
      r ≠ some ParseError.NotFullPathError) :=
  ⟨relative_path_rejected.1 EditorConfigHandle.new [] fsEndToEnd (str ("rel.txt"))
      (by decide) (by decide),
   relative_path_rejected.2 EditorConfigHandle.new [] (str ("/x")) (by decide) (by decide)⟩

/-! ### Claim theorem: configuration filename (C8) -/

/-- C8: on a fresh handle `get_config_filename` returns `none` and resolution
uses the default filename `.editorconfig`; after `set_config_filename f` for a
NUL-free `f`, `get_config_filename` returns `some f` and resolution looks for
files named `f` instead, as the concrete scenario with `/.myconf` shows. -/
theorem config_filename_override :
    EditorConfigHandle.get_config_filename EditorConfigHandle.new = none ∧
    EditorConfigHandle.effectiveConfigFilename EditorConfigHandle.new = str (".editorconfig") ∧
    (∀ (h : EditorConfigHandle) (f : Str), (0 : Nat) ∉ f →
      EditorConfigHandle.set_config_filename h f = .ok { h with config_filename := some f } ∧
      EditorConfigHandle.get_config_filename { h with config_filename := some f } = some f ∧
      EditorConfigHandle.effectiveConfigFilename { h with config_filename := some f } = f) ∧
    parsedRules EditorConfigHandle.new fsCustomName (str ("/file.txt")) = some [] ∧
    EditorConfigHandle.set_config_filename EditorConfigHandle.new (str (".myconf")) =
      .ok ⟨⟨0, 0, 0⟩, some (str (".myconf")), ⟨[], none⟩⟩ ∧
    parsedRules ⟨⟨0, 0, 0⟩, some (str (".myconf")), ⟨[], none⟩⟩ fsCustomName
        (str ("/file.txt")) =
      some [(str ("indent_size"), str ("4"))] := by
  refine ⟨rfl, by decide, ?_, by decide, by decide, by decide⟩
  intro h f hf
  refine ⟨?_, rfl, rfl⟩
  simp [EditorConfigHandle.set_config_filename, hf]

theorem config_filename_override_witness :
    EditorConfigHandle.set_config_filename EditorConfigHandle.new (str (".x")) =
      .ok { EditorConfigHandle.new with config_filename := some (str (".x")) } ∧
    EditorConfigHandle.get_config_filename
      { EditorConfigHandle.new with config_filename := some (str (".x")) } =
        some (str (".x")) ∧
    EditorConfigHandle.effectiveConfigFilename
      { EditorConfigHandle.new with config_filename := some (str (".x")) } = str (".x") :=
  config_filename_override.2.2.1 EditorConfigHandle.new (str (".x")) (by decide)

/-! ### Claim theorem: syntax errors surface file and line (C1) -/

theorem collectFiles_first_error (fs : FS) (pre : List (Str × Str)) (f rel content : Str)
    (post : List (Str × Str)) (n : Nat)
    (hpre : ∀ p ∈ pre, ∀ c : Str, findRule fs p.1 = some c →
      ∃ secs, iniParse c = .ok secs ∧ hasRoot secs = false)
    (hf : findRule fs f = some content) (herr : iniParse content = .error n) :
    collectFiles fs (pre ++ (f, rel) :: post) = .error (f, n) := by
  induction pre with
  | nil =>
    simp only [List.nil_append, collectFiles, hf, herr]
  | cons p pre ih =>
    have hp := hpre p (List.mem_cons_self p pre)
    simp only [List.cons_append, collectFiles]
    cases hc : findRule fs p.1 with
    | none =>
      exact ih fun q hq => hpre q (List.mem_cons_of_mem p hq)
    | some c =>
      obtain ⟨secs, hok, hroot⟩ := hp c hc
      have hrec := ih fun q hq => hpre q (List.mem_cons_of_mem p hq)
      simp only [hok, hroot, Bool.false_eq_true, if_false, List.append_eq, hrec]

/-- C1: when the first existing candidate file on the walk that fails to parse
has its first malformed line at 1-based line number `n` (every closer candidate
is absent or parses cleanly without declaring `root = true`), `parse` returns
`LineError(n)` — every positive return code is mapped to `LineError` with that
code as the line number — and `get_error_file` then returns the path of the
offending file. -/
theorem syntax_error_line_reported
    (h : EditorConfigHandle) (fs : FS) (target f rel content : Str)
    (pre post : List (Str × Str)) (n : Nat)
    (hnul : (0 : Nat) ∉ target)
    (habs : isAbsolute target = true)
    (hver : Version.cmp h.version libVersion ≠ .gt)
    (hcand : candidates h.effectiveConfigFilename target = pre ++ (f, rel) :: post)
    (hpre : ∀ p ∈ pre, ∀ c : Str, findRule fs p.1 = some c →
      ∃ secs, iniParse c = .ok secs ∧ hasRoot secs = false)
    (hf : findRule fs f = some content)
    (herr : iniParse content = .error n) :
    EditorConfigHandle.parse h fs target =
      .ok (some (.LineError (n : Int)), { h with core := ⟨[], some f⟩ }) ∧
    EditorConfigHandle.get_error_file { h with core := ⟨[], some f⟩ } = some f := by
  have hcollect : collectFiles fs (candidates h.effectiveConfigFilename target) =
      .error (f, n) := by
    rw [hcand]
    exact collectFiles_first_error fs pre f rel content post n hpre hf herr
  have hpos : 1 ≤ n := iniParse_error_pos content n herr
  have hcore : editorconfig_parse h.version h.effectiveConfigFilename fs target =
      ((n : Int), ⟨[], some f⟩) := by
    unfold editorconfig_parse
    rw [if_neg (by simp [habs]), if_neg hver, hcollect]
  refine ⟨?_, rfl⟩
  simp only [EditorConfigHandle.parse, hcore]
  rw [if_neg hnul, mapParseCode_pos (n : Int) (by exact_mod_cast hpos)]

theorem syntax_error_line_reported_witness :
    EditorConfigHandle.parse EditorConfigHandle.new
        [(str ("/a/.editorconfig"), str ("garbage"))] (str ("/a/f.txt")) =
      .ok (some (.LineError ((1 : Nat) : Int)),
        { EditorConfigHandle.new with core := ⟨[], some (str ("/a/.editorconfig"))⟩ }) ∧
    EditorConfigHandle.get_error_file
        { EditorConfigHandle.new with core := ⟨[], some (str ("/a/.editorconfig"))⟩ } =
      some (str ("/a/.editorconfig")) :=
  syntax_error_line_reported EditorConfigHandle.new
    [(str ("/a/.editorconfig"), str ("garbage"))] (str ("/a/f.txt"))
    (str ("/a/.editorconfig")) (str ("f.txt")) (str ("garbage"))
    [] [(str ("/.editorconfig"), str ("a/f.txt"))] 1
    (by decide) (by decide) (by decide) (by decide)
    (by simp) (by decide) (by decide)

/-! ### Claim theorem: panics on non-UTF-8 or NUL paths (C9) -/

theorem utf8DecodeAux_nul_iff : ∀ (fuel : Nat) (bytes s : List Nat),
    utf8DecodeAux fuel bytes = some s → ((0 : Nat) ∈ s ↔ (0 : Nat) ∈ bytes) := by
  intro fuel
  induction fuel with
  | zero => intro bytes s h; simp [utf8DecodeAux] at h
  | succ fuel ih =>
    intro bytes s h
    cases bytes with
    | nil =>
      simp only [utf8DecodeAux, Option.some.injEq] at h
      subst h
      simp
    | cons b rest =>
      simp only [utf8DecodeAux] at h
      split_ifs at h with h1 h2 h3 h4
      · obtain ⟨s2, hs2, rfl⟩ := Option.map_eq_some'.mp h
        simp [List.mem_cons, ih rest s2 hs2]
      · split at h
        · rename_i b1 rest2
          split_ifs at h with hc
          have hc2 := hc
          simp only [isCont, Bool.and_eq_true, decide_eq_true_eq] at hc2
          obtain ⟨s2, hs2, rfl⟩ := Option.map_eq_some'.mp h
          have hb : ¬ ((0 : Nat) = b) := by omega
          have hb1 : ¬ ((0 : Nat) = b1) := by omega
          have hcp : ¬ ((0 : Nat) = (b - 192) * 64 + (b1 - 128)) := by omega
          simp [List.mem_cons, ih rest2 s2 hs2, hb, hb1, hcp]
        · simp at h
      · split at h
        · rename_i b1 b2 rest3
          split_ifs at h with hc hg
          have hc2 := hc
          simp only [isCont, Bool.and_eq_true, decide_eq_true_eq] at hc2
          obtain ⟨s2, hs2, rfl⟩ := Option.map_eq_some'.mp h
          have hb : ¬ ((0 : Nat) = b) := by omega
          have hb1 : ¬ ((0 : Nat) = b1) := by omega
          have hb2 : ¬ ((0 : Nat) = b2) := by omega
          have hcp : ¬ ((0 : Nat) = (b - 224) * 4096 + (b1 - 128) * 64 + (b2 - 128)) := by
            omega
          simp [List.mem_cons, ih rest3 s2 hs2, hb, hb1, hb2, hcp]
        · simp at h
      · split at h
        · rename_i b1 b2 b3 rest4
          split_ifs at h with hc hg
          have hc2 := hc
          simp only [isCont, Bool.and_eq_true, decide_eq_true_eq] at hc2
          obtain ⟨s2, hs2, rfl⟩ := Option.map_eq_some'.mp h
          have hb : ¬ ((0 : Nat) = b) := by omega
          have hb1 : ¬ ((0 : Nat) = b1) := by omega
          have hb2 : ¬ ((0 : Nat) = b2) := by omega
          have hb3 : ¬ ((0 : Nat) = b3) := by omega
          have hcp : ¬ ((0 : Nat) =
              (b - 240) * 262144 + (b1 - 128) * 4096 + (b2 - 128) * 64 + (b3 - 128)) := by
            omega
          simp [List.mem_cons, ih rest4 s2 hs2, hb, hb1, hb2, hb3, hcp]
        · simp at h

/-- C9: `parse` on an OS-level path panics (modelled as `Except.error`) whenever
the path is not valid UTF-8 or contains an interior NUL byte, and returns
without a panic on every UTF-8, NUL-free path, so the no-panic guarantee holds
only for UTF-8, NUL-free paths. -/
theorem parse_panics_on_invalid_paths (h : EditorConfigHandle) (fs : FS) (bytes : List Nat) :
    ((utf8Decode bytes = none ∨ (0 : Nat) ∈ bytes) →
      ∃ msg, EditorConfigHandle.parseOsPath h fs bytes = .error msg) ∧
    (∀ s : List Nat, utf8Decode bytes = some s → (0 : Nat) ∉ bytes →
      ∃ (r : Option ParseError) (h2 : EditorConfigHandle),
        EditorConfigHandle.parseOsPath h fs bytes = .ok (r, h2)) := by
  constructor
  · intro hbad
    cases hd : utf8Decode bytes with
    | none => exact ⟨str ("Invalid UTF-8 path"), by simp [EditorConfigHandle.parseOsPath, hd]⟩
    | some s =>
      rcases hbad with hb | hb
      · rw [hd] at hb; cases hb
      · have hnul : (0 : Nat) ∈ s := (utf8DecodeAux_nul_iff _ bytes s hd).mpr hb
        refine ⟨str ("Failed to create CString from path"), ?_⟩
        simp [EditorConfigHandle.parseOsPath, hd, EditorConfigHandle.parse, hnul]
  · intro s hs hnb
    have hnul : (0 : Nat) ∉ s := fun hin => hnb ((utf8DecodeAux_nul_iff _ bytes s hs).mp hin)
    obtain ⟨pe, hpe⟩ := mapParseCode_total
      (editorconfig_parse h.version h.effectiveConfigFilename fs s).1
      (editorconfig_parse_code_cases h.version h.effectiveConfigFilename fs s)
    refine ⟨pe,
      { h with core := (editorconfig_parse h.version h.effectiveConfigFilename fs s).2 }, ?_⟩
    simp only [EditorConfigHandle.parseOsPath, hs, EditorConfigHandle.parse]
    rw [if_neg hnul, hpe]

theorem parse_panics_on_invalid_paths_witness :
    (∃ msg, EditorConfigHandle.parseOsPath EditorConfigHandle.new [] [255] = .error msg) ∧
    (∃ (r : Option ParseError) (h2 : EditorConfigHandle),
      EditorConfigHandle.parseOsPath EditorConfigHandle.new [] [47, 120] = .ok (r, h2)) :=
  ⟨(parse_panics_on_invalid_paths EditorConfigHandle.new [] [255]).1 (Or.inl (by decide)),
   (parse_panics_on_invalid_paths EditorConfigHandle.new [] [47, 120]).2 [47, 120]
     (by decide) (by decide)⟩

theorem version_cmp_lexicographic_witness :
    Version.lt ⟨0, 0, 0⟩ ⟨0, 12, 5⟩ ∨ (⟨0, 0, 0⟩ : Version) = ⟨0, 12, 5⟩ ∨
      Version.lt ⟨0, 12, 5⟩ ⟨0, 0, 0⟩ :=
  (version_cmp_lexicographic ⟨0, 0, 0⟩ ⟨0, 12, 5⟩).2
